import Mathlib

/-!
# The `/user` request handler of `db/main.go`

A shallow embedding of `handler` (db/main.go, lines 72-184) together with the
parts of its surroundings that decide what the handler does:

* the identifier library (`ulid.Timestamp`, `ulid.New`, `ULID.String`,
  `ULID.UnmarshalText`),
* the response writer of `net/http` (`Header().Set`, `WriteHeader`, `Write`),
* the JSON encoder and decoder as far as the two record types are concerned,
* the relational store behind `db` (table `user`, one transaction at a time).

The handler is a function from a request, the scripted behaviour of the clock
and of the datastore, and a starting world, to the world after the request: the
table, the state of the response writer, and the list of calls made on the
datastore and on the response writer, oldest first.  Logging is left out: no
`log.Printf` call changes the table or the response.
-/

namespace UserService

/-! ## Identifiers

The identifier library `github.com/oklog/ulid`, the clock (`time`) and the
pseudo-random generator (`math/rand`) are not under `src/`.  The library is
modelled after the ULID format the specification describes; the generator is a
parameter of the handler. -/

/-- Modelled from the spec: the type `ulid.ULID` is not under `src/`; it is "a
structured 128-bit value (48-bit timestamp + 80-bit randomness)".  The value of
its 16 bytes read big-endian: the upper 48 bits are the millisecond timestamp,
the lower 80 bits the random payload. -/
abbrev ULID := Nat

/-- The constant `maxTime` of the identifier library: the largest timestamp
that fits 48 bits. -/
def maxTime : Nat := 281474976710655

/-- The Crockford base-32 alphabet `Encoding` of the identifier library. -/
def Encoding : List Char := "0123456789ABCDEFGHJKMNPQRSTVWXYZ".toList

/-- The character standing for the base-32 digit `d`. -/
def encChar (d : Nat) : Char := Encoding.getD d '0'

/-- The `w` lowest base-32 digits of `n`, most significant first, written in
the alphabet `Encoding`. -/
def encodeBase32 : Nat → Nat → List Char
  | 0, _ => []
  | w + 1, n => encChar ((n / 32 ^ w) % 32) :: encodeBase32 w n

/-- An instant of the wall clock, in nanoseconds since the Unix epoch
(`time.Time`). -/
abbrev Time := Int

/-- Conversion of a Go `int64` to `uint64` (two-complement reinterpretation). -/
def toUint64 (x : Int) : Nat := (x % 2 ^ 64).toNat

/-- Wrap-around of an integer to the range of a Go `int64`. -/
def wrapInt64 (x : Int) : Int := (x + 2 ^ 63) % 2 ^ 64 - 2 ^ 63

/-- The method `Time.Unix()`: whole seconds since the epoch. -/
def Time.Unix (t : Time) : Int := t / 1000000000

/-- The method `Time.Nanosecond()`: the nanosecond offset within the second,
in `[0, 999999999]`. -/
def Time.Nanosecond (t : Time) : Int := t % 1000000000

/-- The method `Time.UnixNano()`, an `int64`. -/
def Time.UnixNano (t : Time) : Int := wrapInt64 t

/-- The function `ulid.Timestamp`:
`uint64(t.Unix())*1000 + uint64(t.Nanosecond()/int(time.Millisecond))`. -/
def Timestamp (t : Time) : Nat :=
  (toUint64 t.Unix * 1000 + toUint64 (t.Nanosecond / 1000000)) % 2 ^ 64

/-- A seeded pseudo-random source: `rand.New(rand.NewSource(seed))` followed by
one read of ten bytes, as done by `ulid.New`.  The generator of `math/rand` is
not part of the sources, so the bytes it yields for a seed are a parameter: the
value is the ten bytes read big-endian, reduced to 80 bits. -/
abbrev Entropy := Int → Nat

/-- Modelled from the spec: the function `ulid.New(ms, entropy)` is not under
`src/`; it builds "a time-sortable unique identifier combining the current
wall-clock millisecond timestamp with a ... pseudo-random 80-bit payload", and
"generation failure" is possible.  For a source that always delivers its ten
bytes (as `rand.Rand` does): a timestamp above `maxTime` is refused
(`ErrBigTime`), otherwise the identifier is the timestamp followed by the ten
bytes read. -/
def ulidNew (ms : Nat) (payload : Nat) : Option ULID :=
  if ms > maxTime then none else some (ms * 2 ^ 80 + payload % 2 ^ 80)

/-- The decoding table `dec` of the identifier library: the digit value of a
byte of the alphabet (upper or lower case), `0xFF` for any other byte. -/
def dec (b : Nat) : Nat :=
  if 48 ≤ b ∧ b ≤ 57 then b - 48
  else
    let c := if 97 ≤ b ∧ b ≤ 122 then b - 32 else b
    let i := Encoding.indexOf (Char.ofNat c)
    if 65 ≤ c ∧ c ≤ 90 ∧ i < 32 then i else 255

/-- The UTF-8 bytes of a string. -/
def utf8Bytes (s : String) : List Nat :=
  s.data.flatMap fun c => (String.utf8EncodeChar c).map UInt8.toNat

/-- The builtin `len` on a Go string: its length in bytes. -/
def len (s : String) : Nat := s.utf8ByteSize

/-- The method `ULID.UnmarshalText` of the identifier library (`parse` with
`strict = false`), through which `encoding/json` stores a JSON string into a
`ulid.ULID`: the text must be 26 bytes long (`ErrDataSize`) and its first byte at
most `'7'` (`ErrOverflow`); the sixteen bytes are then assembled from the table
values, each expression truncated to a byte. -/
def ULID.UnmarshalText (s : String) : Option ULID :=
  let v := utf8Bytes s
  if v.length ≠ 26 then none
  else if v.getD 0 0 > 55 then none
  else
    let d := fun i => dec (v.getD i 0)
    let b : List Nat :=
      [ (d 0 <<< 5) ||| d 1,
        (d 2 <<< 3) ||| (d 3 >>> 2),
        (d 3 <<< 6) ||| (d 4 <<< 1) ||| (d 5 >>> 4),
        (d 5 <<< 4) ||| (d 6 >>> 1),
        (d 6 <<< 7) ||| (d 7 <<< 2) ||| (d 8 >>> 3),
        (d 8 <<< 5) ||| d 9,
        (d 10 <<< 3) ||| (d 11 >>> 2),
        (d 11 <<< 6) ||| (d 12 <<< 1) ||| (d 13 >>> 4),
        (d 13 <<< 4) ||| (d 14 >>> 1),
        (d 14 <<< 7) ||| (d 15 <<< 2) ||| (d 16 >>> 3),
        (d 16 <<< 5) ||| d 17,
        (d 18 <<< 3) ||| (d 19 >>> 2),
        (d 19 <<< 6) ||| (d 20 <<< 1) ||| (d 21 >>> 4),
        (d 21 <<< 4) ||| (d 22 >>> 1),
        (d 22 <<< 7) ||| (d 23 <<< 2) ||| (d 24 >>> 3),
        (d 24 <<< 5) ||| d 25 ]
    some (b.foldl (fun acc x => acc * 256 + x % 256) 0)

/-- Modelled from the spec: the method `ULID.String()` is not under `src/`; the
text is the 26-character form shown in the specification
(`01ARZ3NDEKTSV4RRFFQ69G5FAV`), "sortable lexicographically by creation time":
the 128 bits written as 26 base-32 digits, most significant first, ten for the
timestamp followed by sixteen for the random payload. -/
def ULID.String (id : ULID) : String := ⟨encodeBase32 26 id⟩

/-! ## Records and their JSON forms

The package `encoding/json` is not under `src/`.  Its encoder is modelled on the
two types the handler marshals; its decoder on a request body that is already
split into the members of its JSON object, each member tagged with the field of
`UserResForHTTPPost` its name matches. -/

/-- The record of the read path (`UserResForHTTPGet`). -/
structure UserResForHTTPGet where
  Id : String
  Name : String
  Age : Int
deriving DecidableEq, Repr

/-- The record of the write path (`UserResForHTTPPost`). -/
structure UserResForHTTPPost where
  Id : ULID
  Name : String
  Age : Int
deriving DecidableEq, Repr

/-- The lower-case hexadecimal digit of `d`. -/
def hexDigit (d : Nat) : Char := "0123456789abcdef".toList.getD d '0'

/-- How `encoding/json` writes one character inside a string (with HTML
escaping, the default of `json.Marshal`): the quote and the backslash get a
backslash, backspace, form feed, line feed, carriage return and tab their short
escapes, the other control characters and `<`, `>`, `&` the form `\u00XX`, the
line and paragraph separators `\u2028` and `\u2029`; everything else is copied.
(Releases before Go 1.22 write `\u0008` and `\u000c` for backspace and form
feed.) -/
def escapeChar (c : Char) : List Char :=
  let n := c.toNat
  if n = 34 ∨ n = 92 then [Char.ofNat 92, c]
  else if n = 8 then [Char.ofNat 92, 'b']
  else if n = 12 then [Char.ofNat 92, 'f']
  else if n = 10 then [Char.ofNat 92, 'n']
  else if n = 13 then [Char.ofNat 92, 'r']
  else if n = 9 then [Char.ofNat 92, 't']
  else if n < 32 ∨ n = 60 ∨ n = 62 ∨ n = 38 then
    [Char.ofNat 92, 'u', '0', '0', hexDigit (n / 16), hexDigit (n % 16)]
  else if n = 8232 ∨ n = 8233 then
    [Char.ofNat 92, 'u', '2', '0', '2', hexDigit (n % 16)]
  else [c]

/-- The JSON text of a Go string (`appendString` of `encoding/json`). -/
def jsonString (s : String) : String :=
  ⟨Char.ofNat 34 :: (s.data.flatMap escapeChar ++ [Char.ofNat 34])⟩

/-- The JSON text of a Go `int`. -/
def jsonInt (n : Int) : String := toString n

/-- The JSON object `json.Marshal` writes for one `UserResForHTTPGet`, fields in
declaration order under their tags `id`, `name`, `age`. -/
def marshalUser (u : UserResForHTTPGet) : String :=
  "\x7b\"id\":" ++ jsonString u.Id ++ ",\"name\":" ++ jsonString u.Name ++
    ",\"age\":" ++ jsonInt u.Age ++ "\x7d"

/-- The call `json.Marshal(users)` on a non-nil slice of `UserResForHTTPGet`: a
JSON array, elements in slice order; the empty slice gives `[]`.  The call
cannot fail on this type. -/
def marshalUsers (users : List UserResForHTTPGet) : String :=
  "[" ++ ",".intercalate (users.map marshalUser) ++ "]"

/-- The call `json.Marshal(u.Id)`: `ulid.ULID` implements
`encoding.TextMarshaler`, so the value is written as a JSON string holding
`ULID.String()`.  The call cannot fail. -/
def marshalULID (id : ULID) : String := jsonString id.String

/-- The top-level fields of `UserResForHTTPPost` a member of a JSON object can
fall on; `other` is a member whose name matches no field. -/
inductive Key where
  | id | name | age | other
deriving DecidableEq, Repr

/-- The value of a member of the JSON object in a request body, as far as the
decoder tells values apart: `int n` is a number written as an integer literal,
`nonInt` a number with a fraction or an exponent, `composite` an array or an
object. -/
inductive JSONValue where
  | null
  | bool (b : Bool)
  | int (n : Int)
  | nonInt
  | string (s : String)
  | composite
deriving DecidableEq, Repr

/-- The first JSON value of a request body: `malformed` when none can be read
(empty or syntactically wrong input), `null`, `other` for any value that is
neither `null` nor an object, or an object with its members in order. -/
inductive Body where
  | malformed
  | null
  | other
  | object (members : List (Key × JSONValue))
deriving DecidableEq, Repr

/-- How `encoding/json` stores one member into a `UserResForHTTPPost`; `none`
when the decoder records an error.  A `null` leaves the field as it is.  `Id` is
a `ulid.ULID`, which implements `encoding.TextUnmarshaler`: only a JSON string
is accepted for it and it goes through `ULID.UnmarshalText`.  `Name` takes a
JSON string, `Age` an integer literal in the range of `int` (64 bits). -/
def decodeMember (u : UserResForHTTPPost) : Key × JSONValue → Option UserResForHTTPPost
  | (_, .null) => some u
  | (.other, _) => some u
  | (.id, .string s) => (ULID.UnmarshalText s).map fun id => { u with Id := id }
  | (.id, _) => none
  | (.name, .string s) => some { u with Name := s }
  | (.name, _) => none
  | (.age, .int n) =>
      if -(2 : Int) ^ 63 ≤ n ∧ n < 2 ^ 63 then some { u with Age := n } else none
  | (.age, _) => none

/-- The members of an object stored one after the other; an error on any member
makes the whole call return an error. -/
def decodeMembers (u : UserResForHTTPPost) : List (Key × JSONValue) → Option UserResForHTTPPost
  | [] => some u
  | m :: ms =>
    match decodeMember u m with
    | some v => decodeMembers v ms
    | none => none

/-- The call `json.NewDecoder(r.Body).Decode(&u)` on a zero `u`: `none` stands
for a non-nil error. -/
def Decode : Body → Option UserResForHTTPPost
  | .malformed => none
  | .null => some ⟨0, "", 0⟩
  | .other => none
  | .object ms => decodeMembers ⟨0, "", 0⟩ ms

/-! ## The response writer

The package `net/http` is not under `src/`.  The writer is modelled after the
documented contract of `http.ResponseWriter`: `WriteHeader` sends the status
line together with the header map as it stands at that moment, the first `Write`
calls `WriteHeader(http.StatusOK)` if it was not called before, and "changing
the header map after a call to WriteHeader (or Write) has no effect". -/

/-- The state of an `http.ResponseWriter`: the header map handed out by
`Header()`, whether the status line has been written, the status and the
headers that went out with it, and the body written so far. -/
structure ResponseWriter where
  header : List (String × String) := []
  wroteHeader : Bool := false
  status : Nat := 0
  sentHeader : List (String × String) := []
  body : String := ""
deriving DecidableEq, Repr

/-- The call `w.Header().Set(key, value)`: it changes the header map; the
headers already sent with the status line are not touched ("changing the header
map after a call to WriteHeader (or Write) has no effect"). -/
def ResponseWriter.Set (w : ResponseWriter) (key value : String) : ResponseWriter :=
  { w with header := (key, value) :: w.header.filter fun kv => kv.1 ≠ key }

/-- The call `w.WriteHeader(code)`: the first call fixes the status and sends
the header map as it stands; a later call is superfluous and changes nothing. -/
def ResponseWriter.WriteHeader (w : ResponseWriter) (code : Nat) : ResponseWriter :=
  if w.wroteHeader then w
  else { w with wroteHeader := true, status := code, sentHeader := w.header }

/-- The call `w.Write(bytes)`: if the status line is not written yet it is
written first with `200`; the bytes are added to the body. -/
def ResponseWriter.Write (w : ResponseWriter) (bytes : String) : ResponseWriter :=
  let w := w.WriteHeader 200
  { w with body := w.body ++ bytes }

/-- What the client receives once the handler has returned. -/
structure Response where
  status : Nat
  header : List (String × String)
  body : String
deriving DecidableEq, Repr

/-- The response the server sends for a writer state when the handler returns:
a handler that wrote nothing gets status `200`.  Only the headers set by the
handler are tracked (the server adds its own, such as `Date`, and a
`Content-Type` found by sniffing the body when the handler sent none). -/
def ResponseWriter.finish (w : ResponseWriter) : Response :=
  let w := w.WriteHeader 200
  ⟨w.status, w.sentHeader, w.body⟩

/-- The value of a header of a response, if the handler sent it. -/
def Response.get (r : Response) (key : String) : Option String :=
  (r.header.find? fun kv => kv.1 = key).map Prod.snd

/-! ## The datastore

The relational store and its driver (`database/sql`) are not under `src/`; the
specification treats the store as an external collaborator.  It is modelled as
one table whose rows the cursor walks in table order, with failures of its own
scripted per request. -/

/-- A row of table `user`.  The column `age` may hold `NULL` (a row written by
someone else than the handler). -/
structure Row where
  id : String
  name : String
  age : Option Int
deriving DecidableEq, Repr

/-- A parameter of a SQL statement. -/
inductive SQLValue where
  | text (s : String)
  | int (n : Int)
deriving DecidableEq, Repr

/-- Modelled from the spec: after a commit failure the "row may or may not be
durably inserted".  The outcome scripted for `tx.Commit()`: success, or a
failure that leaves the row out, or a failure after which the row is in the
table all the same. -/
inductive CommitResult where
  | ok
  | failedNotApplied
  | failedApplied
deriving DecidableEq, Repr

/-- What the surroundings do during one request: the two readings of the clock
(`time.Now()` on line 138, then on line 139) and whether the datastore fails a
call for a reason of its own (connection lost and the like). -/
structure Env where
  nowSeed : Time
  nowStamp : Time
  queryErr : Bool := false
  beginErr : Bool := false
  execErr : Bool := false
  commit : CommitResult := .ok
deriving Repr

/-- A call made by the handler on the datastore or on the response writer. -/
inductive Call where
  | Query (sql : String) (args : List SQLValue)
  | RowsClose
  | Begin
  | Exec (sql : String) (args : List SQLValue)
  | Commit
  | Rollback
  | HeaderSet (key value : String)
  | WriteHeader (code : Nat)
  | Write (bytes : String)
deriving DecidableEq, Repr

/-- Whether a call goes to the datastore. -/
def Call.isDatastore : Call → Bool
  | .Query _ _ | .RowsClose | .Begin | .Exec _ _ | .Commit | .Rollback => true
  | _ => false

/-- The world a request runs in: the committed rows of table `user` in the
order the cursor walks them, the response writer of the request, and the calls
made so far, oldest first. -/
structure World where
  table : List Row := []
  w : ResponseWriter := {}
  calls : List Call := []
deriving DecidableEq, Repr

/-- The text of the `SELECT` statement of the read path. -/
def selectSQL : String := "SELECT id, name, age FROM user WHERE name = ?"

/-- The text of the `INSERT` statement of the write path (the constant `query`). -/
def query : String := "INSERT INTO user (id, name, age) VALUES (?, ?, ?)"

/-- Modelled from the spec: the relational store is an external collaborator,
"assumed to provide a user table with columns id/name/age and standard SQL
semantics".  The call `db.Query(sql, args...)`: the rows whose `name` equals the
parameter, in table order; an error when the store fails or does not know the
statement. -/
def World.Query (σ : World) (env : Env) (sql : String) (args : List SQLValue) :
    Option (List Row) × World :=
  let σ := { σ with calls := σ.calls ++ [.Query sql args] }
  if env.queryErr then (none, σ)
  else if sql = selectSQL then
    match args with
    | [.text name] => (some (σ.table.filter fun row => row.name = name), σ)
    | _ => (none, σ)
  else (none, σ)

/-- The call `rows.Close()`; its error is only logged. -/
def World.RowsClose (σ : World) : World :=
  { σ with calls := σ.calls ++ [.RowsClose] }

/-- An open transaction: the rows written in it and not yet committed. -/
structure Tx where
  pending : List Row := []
deriving DecidableEq, Repr

/-- The call `db.Begin()`. -/
def World.Begin (σ : World) (env : Env) : Option Tx × World :=
  let σ := { σ with calls := σ.calls ++ [.Begin] }
  if env.beginErr then (none, σ) else (some {}, σ)

/-- Modelled from the spec: table `user(id TEXT/VARCHAR PRIMARY KEY, name TEXT,
age INTEGER)`.  The call `tx.Exec(sql, args...)`: the `INSERT` adds a row to the
transaction unless the store fails, does not know the statement, or a row with
the same `id` exists already (primary key). -/
def World.Exec (σ : World) (env : Env) (tx : Tx) (sql : String) (args : List SQLValue) :
    Option Tx × World :=
  let σ := { σ with calls := σ.calls ++ [.Exec sql args] }
  if env.execErr then (none, σ)
  else if sql = query then
    match args with
    | [.text id, .text name, .int age] =>
      if (σ.table ++ tx.pending).any (fun row => row.id = id) then (none, σ)
      else (some { tx with pending := tx.pending ++ [⟨id, name, some age⟩] }, σ)
    | _ => (none, σ)
  else (none, σ)

/-- The call `tx.Rollback()`: the rows of the transaction are dropped. -/
def World.Rollback (σ : World) (_tx : Tx) : World :=
  { σ with calls := σ.calls ++ [.Rollback] }

/-- The call `tx.Commit()`; `true` stands for a nil error.  On success the rows
of the transaction join the table; on failure they do or do not, as scripted. -/
def World.Commit (σ : World) (env : Env) (tx : Tx) : Bool × World :=
  let σ := { σ with calls := σ.calls ++ [.Commit] }
  match env.commit with
  | .ok => (true, { σ with table := σ.table ++ tx.pending })
  | .failedNotApplied => (false, σ)
  | .failedApplied => (false, { σ with table := σ.table ++ tx.pending })

/-- The call `w.WriteHeader(code)` in a world. -/
def World.WriteHeader (σ : World) (code : Nat) : World :=
  { σ with w := σ.w.WriteHeader code, calls := σ.calls ++ [.WriteHeader code] }

/-- The call `w.Header().Set(key, value)` in a world. -/
def World.HeaderSet (σ : World) (key value : String) : World :=
  { σ with w := σ.w.Set key value, calls := σ.calls ++ [.HeaderSet key value] }

/-- The call `w.Write(bytes)` in a world. -/
def World.Write (σ : World) (bytes : String) : World :=
  { σ with w := σ.w.Write bytes, calls := σ.calls ++ [.Write bytes] }

/-- The call `rows.Scan(&u.Id, &u.Name, &u.Age)` on one row: converting `NULL`
to `int` is an error. -/
def Scan (row : Row) : Option UserResForHTTPGet :=
  match row.age with
  | some age => some ⟨row.id, row.name, age⟩
  | none => none

/-- The loop `for rows.Next()` of lines 93-105 over the rows the cursor still
holds: each row is scanned and appended to `users`; `none` when a scan fails. -/
def scanRows : List Row → List UserResForHTTPGet → Option (List UserResForHTTPGet)
  | [], users => some users
  | row :: rows, users =>
    match Scan row with
    | none => none
    | some u => scanRows rows (users ++ [u])

/-! ## The handler -/

/-- An HTTP request as the handler uses it: the method, the parsed query
parameters in order, and the body. -/
structure Request where
  Method : String
  Query : List (String × String) := []
  Body : Body := .malformed
deriving Repr

/-- The call `r.URL.Query().Get(key)`: the first value of the parameter, the
empty string when there is none. -/
def Request.Get (r : Request) (key : String) : String :=
  match r.Query.find? fun kv => kv.1 = key with
  | some kv => kv.2
  | none => ""

/-- The function `handler` of db/main.go. -/
def handler (entropy : Entropy) (env : Env) (r : Request) (σ : World) : World :=
  if r.Method = "GET" then
    let name := r.Get "name"
    if name = "" then σ.WriteHeader 400
    else
      match σ.Query env selectSQL [.text name] with
      | (none, σ) => σ.WriteHeader 500
      | (some rows, σ) =>
        match scanRows rows [] with
        | none => (σ.RowsClose).WriteHeader 500
        | some users =>
          let bytes := marshalUsers users
          (σ.HeaderSet "Content-Type" "application/json").Write bytes
  else if r.Method = "POST" then
    match Decode r.Body with
    | none => σ.WriteHeader 500
    | some u =>
      if u.Name = "" ∨ len u.Name > 50 then σ.WriteHeader 400
      else if u.Age < 20 ∨ u.Age > 80 then σ.WriteHeader 400
      else
        let payload := entropy env.nowSeed.UnixNano
        let ms := Timestamp env.nowStamp
        match ulidNew ms payload with
        | none => σ.WriteHeader 500
        | some id =>
          let u := { u with Id := id }
          match σ.Begin env with
          | (none, σ) => σ.WriteHeader 500
          | (some tx, σ) =>
            match σ.Exec env tx query [.text u.Id.String, .text u.Name, .int u.Age] with
            | (none, σ) => (σ.Rollback tx).WriteHeader 500
            | (some tx, σ) =>
              match σ.Commit env tx with
              | (false, σ) => σ.WriteHeader 500
              | (true, σ) =>
                let σ := σ.WriteHeader 200
                let bytes := marshalULID u.Id
                (σ.HeaderSet "Content-Type" "application/json").Write bytes
  else σ.WriteHeader 400

/-- The response of the handler to a request served in a fresh world over the
given table, together with the world it leaves. -/
def serve (entropy : Entropy) (env : Env) (r : Request) (table : List Row) : World :=
  handler entropy env r { table := table }

/-! ## Notions used to state the properties -/

/-- The identifier the write path generates from the two clock readings of a
request (lines 138-140). -/
def generatedId (entropy : Entropy) (env : Env) : Option ULID :=
  ulidNew (Timestamp env.nowStamp) (entropy env.nowSeed.UnixNano)

/-- The checks of lines 126 and 131 pass. -/
def validUser (u : UserResForHTTPPost) : Prop :=
  u.Name ≠ "" ∧ len u.Name ≤ 50 ∧ 20 ≤ u.Age ∧ u.Age ≤ 80

instance (u : UserResForHTTPPost) : Decidable (validUser u) := by
  unfold validUser; infer_instance

/-- The datastore lets `Begin`, the `INSERT` of a row with the given `id` and
`Commit` succeed on the given table. -/
def insertOk (env : Env) (table : List Row) (id : String) : Prop :=
  env.beginErr = false ∧ env.execErr = false ∧ (∀ row ∈ table, row.id ≠ id) ∧ env.commit = .ok

instance (env : Env) (table : List Row) (id : String) : Decidable (insertOk env table id) := by
  unfold insertOk; infer_instance

/-- The `INSERT` call the write path makes for a record. -/
def insertCall (id : ULID) (u : UserResForHTTPPost) : Call :=
  .Exec query [.text id.String, .text u.Name, .int u.Age]

/-- The world left by a request that made the given datastore calls on a table
it did not change and then answered with a bare status line. -/
def statusOnly (table : List Row) (calls : List Call) (code : Nat) : World :=
  ⟨table, ({} : ResponseWriter).WriteHeader code, calls ++ [.WriteHeader code]⟩

/-! ## Sample requests and auxiliary notions -/

/-- A sample pseudo-random source (a linear congruential step on the seed). -/
def sampleEntropy : Entropy :=
  fun seed => (seed * 6364136223846793005 + 1442695040888963407).toNat

/-- A sample environment: two clock readings in 2016, a datastore that works. -/
def sampleEnv : Env := { nowSeed := 1469918176385123456, nowStamp := 1469918176385123999 }

/-- The request `POST /user` with body `{"name":"Alice","age":30}`. -/
def alicePost : Request :=
  { Method := "POST", Body := .object [(.name, .string "Alice"), (.age, .int 30)] }

/-- The request `GET /user?name=Alice`. -/
def aliceGet : Request := { Method := "GET", Query := [("name", "Alice")] }

/-- A name of 17 characters that takes 51 bytes in UTF-8. -/
def kanaName : String := "あああああああああああああああああ"

/-- The writer state the write path leaves on success: status line first, then
the header, then the body. -/
def successWriter (id : ULID) : ResponseWriter :=
  ((({} : ResponseWriter).WriteHeader 200).Set "Content-Type" "application/json").Write
    (marshalULID id)

/-- A table that holds one row, named `Alice`. -/
def priorAlice : List Row := [⟨"01ARZ3NDEKTSV4RRFFQ69G5FAV", "Alice", some 41⟩]

/-- The `INSERT` the write path issues right after `Begin`, for the record `u`
with identifier `id` on the given table, returns an error. -/
def execFails (env : Env) (table : List Row) (id : ULID) (u : UserResForHTTPPost) : Prop :=
  (World.Exec ⟨table, {}, [.Begin]⟩ env {} query
    [.text id.String, .text u.Name, .int u.Age]).1 = none

instance (env : Env) (table : List Row) (id : ULID) (u : UserResForHTTPPost) :
    Decidable (execFails env table id u) := by
  unfold execFails; infer_instance

/-- A second sample environment: later than `sampleEnv` within the same
millisecond. -/
def laterEnv : Env := { nowSeed := 1469918176385192387, nowStamp := 1469918176385193456 }

/-- A third sample environment: one millisecond after `sampleEnv`. -/
def nextMsEnv : Env := { nowSeed := 1469918176386123456, nowStamp := 1469918176386123999 }

/-- The part of a decoded record the handler reads: the name and the age. -/
def nameAndAge (u : UserResForHTTPPost) : String × Int := (u.Name, u.Age)

/-- An `id` member the decoder accepts: `null`, or a string that
`ULID.UnmarshalText` accepts. -/
def acceptableId : JSONValue → Bool
  | .null => true
  | .string s => (ULID.UnmarshalText s).isSome
  | _ => false

/-- The write request with the given query parameters and the given members in
the JSON object of its body. -/
def postOf (q : List (String × String)) (members : List (Key × JSONValue)) : Request :=
  { Method := "POST", Query := q, Body := .object members }

/-! ## The text form of identifiers -/

theorem encChar_strictMono : ∀ a : Fin 32, ∀ b : Fin 32, a < b → encChar a < encChar b := by
  decide

theorem encChar_lt {a b : Nat} (hb : b < 32) (h : a < b) : encChar a < encChar b :=
  encChar_strictMono ⟨a, by omega⟩ ⟨b, hb⟩ h

theorem encodeBase32_length (w n : Nat) : (encodeBase32 w n).length = w := by
  induction w with
  | zero => rfl
  | succ w ih => simp [encodeBase32, ih]

theorem encodeBase32_congr (w a b : Nat) (h : a % 32 ^ w = b % 32 ^ w) :
    encodeBase32 w a = encodeBase32 w b := by
  induction w with
  | zero => rfl
  | succ w ih =>
    have ha := Nat.mod_mul (a := 32 ^ w) (b := 32) (x := a)
    have hb := Nat.mod_mul (a := 32 ^ w) (b := 32) (x := b)
    rw [pow_succ] at h
    have hP : 0 < 32 ^ w := by positivity
    have hra : a % 32 ^ w < 32 ^ w := Nat.mod_lt _ hP
    have hrb : b % 32 ^ w < 32 ^ w := Nat.mod_lt _ hP
    have e : a % 32 ^ w + 32 ^ w * (a / 32 ^ w % 32) = b % 32 ^ w + 32 ^ w * (b / 32 ^ w % 32) := by
      rw [← ha, ← hb]; exact h
    have hd : a / 32 ^ w % 32 = b / 32 ^ w % 32 := by
      rcases Nat.lt_trichotomy (a / 32 ^ w % 32) (b / 32 ^ w % 32) with h1 | h1 | h1
      · have := Nat.mul_le_mul_left (32 ^ w) (Nat.succ_le_of_lt h1)
        rw [Nat.mul_succ] at this
        omega
      · exact h1
      · have := Nat.mul_le_mul_left (32 ^ w) (Nat.succ_le_of_lt h1)
        rw [Nat.mul_succ] at this
        omega
    have hr : a % 32 ^ w = b % 32 ^ w := by rw [hd] at e; omega
    simp [encodeBase32, hd, ih hr]

theorem encodeBase32_lt (w a b : Nat) (h : a % 32 ^ w < b % 32 ^ w) :
    encodeBase32 w a < encodeBase32 w b := by
  induction w with
  | zero => simp at h; omega
  | succ w ih =>
    have ha := Nat.mod_mul (a := 32 ^ w) (b := 32) (x := a)
    have hb := Nat.mod_mul (a := 32 ^ w) (b := 32) (x := b)
    rw [pow_succ, ha, hb] at h
    have hP : 0 < 32 ^ w := by positivity
    have hra : a % 32 ^ w < 32 ^ w := Nat.mod_lt _ hP
    have hrb : b % 32 ^ w < 32 ^ w := Nat.mod_lt _ hP
    have hdb : b / 32 ^ w % 32 < 32 := Nat.mod_lt _ (by norm_num)
    rcases Nat.lt_trichotomy (a / 32 ^ w % 32) (b / 32 ^ w % 32) with h1 | h1 | h1
    · exact List.Lex.rel (encChar_lt hdb h1)
    · rw [h1] at h
      have hr : a % 32 ^ w < b % 32 ^ w := by omega
      simp only [encodeBase32, h1]
      exact List.Lex.cons (ih hr)
    · have := Nat.mul_le_mul_left (32 ^ w) (Nat.succ_le_of_lt h1)
      rw [Nat.mul_succ] at this
      omega

theorem encodeBase32_lt_iff (w a b : Nat) :
    encodeBase32 w a < encodeBase32 w b ↔ a % 32 ^ w < b % 32 ^ w := by
  constructor
  · intro h
    by_contra hn
    rcases Nat.lt_or_ge (b % 32 ^ w) (a % 32 ^ w) with h1 | h1
    · exact lt_asymm h (encodeBase32_lt w b a h1)
    · have := encodeBase32_congr w a b (by omega)
      rw [this] at h
      exact lt_irrefl _ h
  · exact encodeBase32_lt w a b

theorem ULID.String_lt_iff (a b : Nat) (ha : a < 2 ^ 128) (hb : b < 2 ^ 128) :
    ULID.String a < ULID.String b ↔ a < b := by
  rw [String.lt_iff_toList_lt]
  show encodeBase32 26 a < encodeBase32 26 b ↔ a < b
  rw [encodeBase32_lt_iff, Nat.mod_eq_of_lt, Nat.mod_eq_of_lt]
  · calc b < 2 ^ 128 := hb
      _ ≤ 32 ^ 26 := by norm_num
  · calc a < 2 ^ 128 := ha
      _ ≤ 32 ^ 26 := by norm_num

theorem ULID.String_inj (a b : Nat) (ha : a < 2 ^ 128) (hb : b < 2 ^ 128) :
    ULID.String a = ULID.String b ↔ a = b := by
  constructor
  · intro h
    rcases Nat.lt_trichotomy a b with h1 | h1 | h1
    · have := (ULID.String_lt_iff a b ha hb).2 h1
      rw [h] at this; exact absurd this (lt_irrefl _)
    · exact h1
    · have := (ULID.String_lt_iff b a hb ha).2 h1
      rw [h] at this; exact absurd this (lt_irrefl _)
  · intro h; rw [h]

theorem ULID.String_le_iff (a b : Nat) (ha : a < 2 ^ 128) (hb : b < 2 ^ 128) :
    ULID.String a ≤ ULID.String b ↔ a ≤ b := by
  rw [← not_lt, ← not_lt, ULID.String_lt_iff b a hb ha]

theorem ulidNew_eq_some {ms p : Nat} {id : Nat} (h : ulidNew ms p = some id) :
    ms ≤ maxTime ∧ id = ms * 2 ^ 80 + p % 2 ^ 80 ∧ id < 2 ^ 128 := by
  unfold ulidNew at h
  split_ifs at h with h1
  simp only [Option.some.injEq] at h
  have hp : p % 2 ^ 80 < 2 ^ 80 := Nat.mod_lt _ (by positivity)
  have hm : ms ≤ maxTime := not_lt.mp h1
  refine ⟨hm, h.symm, ?_⟩
  unfold maxTime at hm
  rw [← h]
  omega

theorem ulid_lt_iff {m₁ m₂ p₁ p₂ : Nat} (h₁ : p₁ < 2 ^ 80) (h₂ : p₂ < 2 ^ 80) :
    m₁ * 2 ^ 80 + p₁ < m₂ * 2 ^ 80 + p₂ ↔ m₁ < m₂ ∨ (m₁ = m₂ ∧ p₁ < p₂) := by
  omega

theorem ulid_eq_iff {m₁ m₂ p₁ p₂ : Nat} (h₁ : p₁ < 2 ^ 80) (h₂ : p₂ < 2 ^ 80) :
    m₁ * 2 ^ 80 + p₁ = m₂ * 2 ^ 80 + p₂ ↔ m₁ = m₂ ∧ p₁ = p₂ := by
  omega

theorem len_eq_zero_iff (s : String) : len s = 0 ↔ s = "" := by
  obtain ⟨l⟩ := s
  cases l with
  | nil => simp [len]; rfl
  | cons c cs =>
    have hc := Char.utf8Size_pos c
    simp [len, String.utf8ByteSize, String.utf8ByteSize.go]
    constructor
    · omega
    · intro h; exact absurd h (by simp [String.ext_iff])

theorem escapeChar_of_mem_Encoding : ∀ c ∈ Encoding, escapeChar c = [c] := by decide

theorem encChar_mem (d : Nat) : encChar d ∈ Encoding := by
  unfold encChar
  by_cases h : d < Encoding.length
  · rw [List.getD_eq_getElem _ _ h]; exact List.getElem_mem _
  · rw [List.getD_eq_default _ _ (by omega)]; decide

theorem encodeBase32_subset (w n : Nat) : ∀ c ∈ encodeBase32 w n, c ∈ Encoding := by
  induction w with
  | zero => simp [encodeBase32]
  | succ w ih =>
    intro c hc
    simp only [encodeBase32, List.mem_cons] at hc
    rcases hc with rfl | hc
    · exact encChar_mem _
    · exact ih c hc

theorem flatMap_escapeChar (l : List Char) (h : ∀ c ∈ l, c ∈ Encoding) :
    l.flatMap escapeChar = l := by
  induction l with
  | nil => rfl
  | cons c cs ih =>
    rw [List.flatMap_cons, escapeChar_of_mem_Encoding c (h c (List.mem_cons_self _ _)),
      ih fun d hd => h d (List.mem_cons_of_mem _ hd)]
    rfl

theorem marshalULID_eq (id : ULID) :
    marshalULID id = ⟨Char.ofNat 34 :: (encodeBase32 26 id ++ [Char.ofNat 34])⟩ := by
  unfold marshalULID jsonString ULID.String
  rw [flatMap_escapeChar _ (encodeBase32_subset 26 id)]

/-! ## The paths through the handler -/

theorem not_validUser_iff (u : UserResForHTTPPost) :
    ¬ validUser u ↔ ((u.Name = "" ∨ len u.Name > 50) ∨ (u.Age < 20 ∨ u.Age > 80)) := by
  unfold validUser
  by_cases h : u.Name = ""
  · simp [h]
  · simp [h]; omega

theorem serve_other (entropy : Entropy) (env : Env) (r : Request) (table : List Row)
    (hg : r.Method ≠ "GET") (hp : r.Method ≠ "POST") :
    serve entropy env r table = statusOnly table [] 400 := by
  simp [serve, handler, hg, hp, statusOnly, World.WriteHeader]

theorem serve_post_decode_none (entropy : Entropy) (env : Env) (r : Request) (table : List Row)
    (hm : r.Method = "POST") (hd : Decode r.Body = none) :
    serve entropy env r table = statusOnly table [] 500 := by
  simp [serve, handler, hm, hd, statusOnly, World.WriteHeader]

theorem serve_post_invalid (entropy : Entropy) (env : Env) (r : Request) (table : List Row)
    (u : UserResForHTTPPost) (hm : r.Method = "POST") (hd : Decode r.Body = some u)
    (hv : ¬ validUser u) :
    serve entropy env r table = statusOnly table [] 400 := by
  rw [not_validUser_iff] at hv
  unfold serve handler
  simp only [hm, hd]
  rcases hv with h | h
  · simp [h, statusOnly, World.WriteHeader]
  · by_cases h1 : u.Name = "" ∨ len u.Name > 50
    · simp [h1, statusOnly, World.WriteHeader]
    · simp [h1, h, statusOnly, World.WriteHeader]

theorem serve_post_valid (entropy : Entropy) (env : Env) (r : Request) (table : List Row)
    (u : UserResForHTTPPost) (hm : r.Method = "POST") (hd : Decode r.Body = some u)
    (hv : validUser u) :
    serve entropy env r table =
      match generatedId entropy env with
      | none => statusOnly table [] 500
      | some id =>
        if env.beginErr then statusOnly table [.Begin] 500
        else if env.execErr ∨ (∃ row ∈ table, row.id = id.String) then
          statusOnly table [.Begin, insertCall id u, .Rollback] 500
        else
          match env.commit with
          | .ok => ⟨table ++ [⟨id.String, u.Name, some u.Age⟩],
              ((({} : ResponseWriter).WriteHeader 200).Set "Content-Type" "application/json").Write
                (marshalULID id),
              [.Begin, insertCall id u, .Commit, .WriteHeader 200,
               .HeaderSet "Content-Type" "application/json", .Write (marshalULID id)]⟩
          | .failedNotApplied => statusOnly table [.Begin, insertCall id u, .Commit] 500
          | .failedApplied =>
              statusOnly (table ++ [⟨id.String, u.Name, some u.Age⟩])
                [.Begin, insertCall id u, .Commit] 500 := by
  have hv' := hv
  rw [← not_not (a := validUser u), not_validUser_iff, not_or] at hv'
  obtain ⟨hn, ha⟩ := hv'
  unfold serve handler generatedId
  simp only [hm, hd, hn, ha]
  cases hg : ulidNew (Timestamp env.nowStamp) (entropy env.nowSeed.UnixNano) with
  | none => simp [World.WriteHeader, statusOnly]
  | some id =>
    by_cases hb : env.beginErr = true
    · simp [World.Begin, hb, World.WriteHeader, statusOnly]
    · by_cases he : env.execErr = true
      · simp [World.Begin, hb, World.WriteHeader, World.Exec, he, World.Rollback, statusOnly,
          insertCall]
      · by_cases hdup : ∃ row ∈ table, row.id = id.String
        · simp [World.Begin, hb, World.WriteHeader, World.Exec, he, World.Rollback, hdup,
            statusOnly, insertCall]
        · cases hc : env.commit <;>
          simp [World.Begin, hb, World.WriteHeader, World.Exec, he, World.Rollback, hdup,
            World.Commit, hc, World.HeaderSet, World.Write, statusOnly, insertCall]

theorem serve_get (entropy : Entropy) (env : Env) (r : Request) (table : List Row)
    (hm : r.Method = "GET") :
    serve entropy env r table =
      if r.Get "name" = "" then statusOnly table [] 400
      else if env.queryErr then statusOnly table [.Query selectSQL [.text (r.Get "name")]] 500
      else
        match scanRows (table.filter fun row => row.name = r.Get "name") [] with
        | none => statusOnly table [.Query selectSQL [.text (r.Get "name")], .RowsClose] 500
        | some users => ⟨table,
            (({} : ResponseWriter).Set "Content-Type" "application/json").Write (marshalUsers users),
            [.Query selectSQL [.text (r.Get "name")],
             .HeaderSet "Content-Type" "application/json", .Write (marshalUsers users)]⟩ := by
  unfold serve handler
  simp only [hm]
  by_cases hn : r.Get "name" = ""
  · simp [hn, statusOnly, World.WriteHeader]
  · by_cases hq : env.queryErr = true
    · simp [hn, hq, World.Query, statusOnly, World.WriteHeader]
    · cases hs : scanRows (table.filter fun row => row.name = r.Get "name") [] <;>
      simp [hn, hq, World.Query, statusOnly, World.WriteHeader, hs, World.RowsClose,
        World.HeaderSet, World.Write]

theorem exec_mem (entropy : Entropy) (env : Env) (r : Request) (table : List Row)
    (sql : String) (args : List SQLValue)
    (h : Call.Exec sql args ∈ (serve entropy env r table).calls) :
    r.Method = "POST" ∧ ∃ u id, Decode r.Body = some u ∧ validUser u ∧
      generatedId entropy env = some id ∧ env.beginErr = false ∧
      Call.Exec sql args = insertCall id u := by
  by_cases hg : r.Method = "GET"
  · rw [serve_get entropy env r table hg] at h
    split_ifs at h
    · simp [statusOnly] at h
    · simp [statusOnly] at h
    · split at h <;> simp [statusOnly] at h
  · by_cases hp : r.Method = "POST"
    · refine ⟨hp, ?_⟩
      cases hd : Decode r.Body with
      | none =>
        rw [serve_post_decode_none entropy env r table hp hd] at h
        simp [statusOnly] at h
      | some u =>
        by_cases hv : validUser u
        · rw [serve_post_valid entropy env r table u hp hd hv] at h
          cases hgen : generatedId entropy env with
          | none => simp [hgen, statusOnly] at h
          | some id =>
            refine ⟨u, id, rfl, hv, rfl, ?_⟩
            simp only [hgen] at h
            split_ifs at h with hb he
            · simp [statusOnly] at h
            · simp [statusOnly, insertCall] at h
              simp [insertCall, h]
              simpa using hb
            · split at h <;> simp [statusOnly, insertCall] at h <;>
                (simp [insertCall, h]; simpa using hb)
        · rw [serve_post_invalid entropy env r table u hp hd hv] at h
          simp [statusOnly] at h
    · rw [serve_other entropy env r table hg hp] at h
      simp [statusOnly] at h

theorem serve_table_cases (entropy : Entropy) (env : Env) (r : Request) (table : List Row) :
    (serve entropy env r table).table = table ∨
    (r.Method = "POST" ∧ ∃ u id, Decode r.Body = some u ∧ validUser u ∧
      generatedId entropy env = some id ∧ (∀ row ∈ table, row.id ≠ id.String) ∧
      (serve entropy env r table).table = table ++ [⟨id.String, u.Name, some u.Age⟩]) := by
  by_cases hg : r.Method = "GET"
  · left
    rw [serve_get entropy env r table hg]
    split_ifs
    · rfl
    · rfl
    · split <;> rfl
  · by_cases hp : r.Method = "POST"
    · cases hd : Decode r.Body with
      | none => left; rw [serve_post_decode_none entropy env r table hp hd]; rfl
      | some u =>
        by_cases hv : validUser u
        · rw [serve_post_valid entropy env r table u hp hd hv]
          cases hgen : generatedId entropy env with
          | none => left; rfl
          | some id =>
            simp only []
            split_ifs with hb he
            · left; rfl
            · left; rfl
            · have hno : ∀ row ∈ table, row.id ≠ id.String := by
                intro row hr hid
                exact he (Or.inr ⟨row, hr, hid⟩)
              split
              · right; exact ⟨hp, u, id, rfl, hv, rfl, hno, rfl⟩
              · left; rfl
              · right; exact ⟨hp, u, id, rfl, hv, rfl, hno, rfl⟩
        · left; rw [serve_post_invalid entropy env r table u hp hd hv]; rfl
    · left; rw [serve_other entropy env r table hg hp]; rfl

/-- C1. A write whose decoded record has an empty name, a name longer than 50
bytes, or an age outside 20..80 is answered with status 400 and nothing else:
no call reaches the datastore and the table is unchanged.  Put the other way
round, every `INSERT` the handler issues, for any request, carries a non-empty
name of at most 50 bytes and an age between 20 and 80, and so does every row
the handler adds to the table. -/
theorem handler_rejects_invalid_write (entropy : Entropy) (env : Env) (r : Request)
    (table : List Row) (u : UserResForHTTPPost)
    (hm : r.Method = "POST") (hd : Decode r.Body = some u)
    (hbad : (u.Name = "" ∨ len u.Name > 50) ∨ (u.Age < 20 ∨ u.Age > 80)) :
    (serve entropy env r table).w.finish = ⟨400, [], ""⟩ ∧
    (∀ c ∈ (serve entropy env r table).calls, c.isDatastore = false) ∧
    (serve entropy env r table).table = table ∧
    (∀ (env' : Env) (r' : Request) (table' : List Row),
      (∀ sql args, Call.Exec sql args ∈ (serve entropy env' r' table').calls →
        ∃ id name age, args = [.text id, .text name, .int age] ∧
          name ≠ "" ∧ len name ≤ 50 ∧ 20 ≤ age ∧ age ≤ 80) ∧
      (∀ row ∈ (serve entropy env' r' table').table, row ∈ table' ∨
        (row.name ≠ "" ∧ len row.name ≤ 50 ∧ ∃ age, row.age = some age ∧ 20 ≤ age ∧ age ≤ 80))) := by
  have hv : ¬ validUser u := (not_validUser_iff u).2 hbad
  rw [serve_post_invalid entropy env r table u hm hd hv]
  refine ⟨by simp [statusOnly, ResponseWriter.finish, ResponseWriter.WriteHeader],
    by simp [statusOnly, Call.isDatastore], rfl, ?_⟩
  intro env' r' table'
  constructor
  · intro sql args h
    obtain ⟨_, u', id, _, hv', _, _, he⟩ := exec_mem entropy env' r' table' sql args h
    simp only [insertCall, Call.Exec.injEq] at he
    exact ⟨id.String, u'.Name, u'.Age, he.2, hv'⟩
  · intro row hrow
    rcases serve_table_cases entropy env' r' table' with h | ⟨_, u', id, _, hv', _, _, h⟩
    · left; rwa [h] at hrow
    · rw [h, List.mem_append, List.mem_singleton] at hrow
      rcases hrow with hrow | rfl
      · left; exact hrow
      · right; exact ⟨hv'.1, hv'.2.1, u'.Age, rfl, hv'.2.2⟩

/-- Witness for C1: the body `{"name":"","age":30}` of the specification. -/
theorem handler_rejects_invalid_write_witness :
    Decode (.object [(.name, .string ""), (.age, .int 30)]) = some ⟨0, "", 30⟩ ∧
    (serve sampleEntropy sampleEnv
      { Method := "POST", Body := .object [(.name, .string ""), (.age, .int 30)] } []).w.finish
      = ⟨400, [], ""⟩ :=
  ⟨by decide,
   (handler_rejects_invalid_write sampleEntropy sampleEnv
    { Method := "POST", Body := .object [(.name, .string ""), (.age, .int 30)] } []
    ⟨0, "", 30⟩ rfl (by decide) (by decide)).1⟩

/-- Counterexample to C2 as stated: a name of 17 characters (51 bytes) with age
30 is answered with status 400. -/
theorem handler_rejects_short_multibyte_name :
    kanaName.length = 17 ∧
    Decode (.object [(.name, .string kanaName), (.age, .int 30)]) = some ⟨0, kanaName, 30⟩ ∧
    (serve sampleEntropy sampleEnv
      { Method := "POST", Body := .object [(.name, .string kanaName), (.age, .int 30)] }
      []).w.finish.status = 400 := by
  decide

theorem serve_post_success (entropy : Entropy) (env : Env) (r : Request) (table : List Row)
    (u : UserResForHTTPPost) (id : ULID) (hm : r.Method = "POST") (hd : Decode r.Body = some u)
    (hv : validUser u) (hgen : generatedId entropy env = some id)
    (hok : insertOk env table id.String) :
    serve entropy env r table =
      ⟨table ++ [⟨id.String, u.Name, some u.Age⟩], successWriter id,
        [.Begin, insertCall id u, .Commit, .WriteHeader 200,
         .HeaderSet "Content-Type" "application/json", .Write (marshalULID id)]⟩ := by
  obtain ⟨hb, he, hno, hc⟩ := hok
  have hdup : ¬ (env.execErr = true ∨ ∃ row ∈ table, row.id = id.String) := by
    rintro (h | ⟨row, hr, hid⟩)
    · simp [he] at h
    · exact hno row hr hid
  rw [serve_post_valid entropy env r table u hm hd hv]
  simp only [hgen, hb, hdup, hc, if_false, Bool.false_eq_true, successWriter]

theorem successWriter_finish (id : ULID) :
    (successWriter id).finish = ⟨200, [], marshalULID id⟩ := by
  simp [successWriter, ResponseWriter.finish, ResponseWriter.WriteHeader, ResponseWriter.Write,
    ResponseWriter.Set]

theorem datastore_calls_of_success (id : ULID) (u : UserResForHTTPPost) :
    ([.Begin, insertCall id u, .Commit, .WriteHeader 200,
       .HeaderSet "Content-Type" "application/json", .Write (marshalULID id)] : List Call).filter
      Call.isDatastore = [.Begin, insertCall id u, .Commit] := by
  simp [List.filter, Call.isDatastore, insertCall]

/-- C2 (amended). A write whose decoded name is between 1 and 50 bytes long
(UTF-8) and whose age is between 20 and 80 is never answered with status 400;
when the identifier is generated and `Begin`, `Exec` and `Commit` succeed, the
datastore sees exactly `Begin`, one `INSERT` with the text of the generated
identifier, the name and the age as decoded, and `Commit`; the row is in the
table and the status is 200. -/
theorem handler_accepts_valid_write (entropy : Entropy) (env : Env) (r : Request)
    (table : List Row) (u : UserResForHTTPPost)
    (hm : r.Method = "POST") (hd : Decode r.Body = some u)
    (hname : 1 ≤ len u.Name ∧ len u.Name ≤ 50) (hage : 20 ≤ u.Age ∧ u.Age ≤ 80) :
    (serve entropy env r table).w.finish.status ≠ 400 ∧
    ∀ id, generatedId entropy env = some id → insertOk env table id.String →
      (serve entropy env r table).calls.filter Call.isDatastore =
        [.Begin, .Exec query [.text id.String, .text u.Name, .int u.Age], .Commit] ∧
      (serve entropy env r table).table = table ++ [⟨id.String, u.Name, some u.Age⟩] ∧
      (serve entropy env r table).w.finish.status = 200 := by
  have hne : u.Name ≠ "" := by
    intro h
    have := (len_eq_zero_iff u.Name).2 h
    omega
  have hv : validUser u := ⟨hne, hname.2, hage⟩
  rw [serve_post_valid entropy env r table u hm hd hv]
  constructor
  · cases generatedId entropy env with
    | none => simp [statusOnly, ResponseWriter.finish, ResponseWriter.WriteHeader]
    | some id =>
      simp only []
      split_ifs
      · simp [statusOnly, ResponseWriter.finish, ResponseWriter.WriteHeader]
      · simp [statusOnly, ResponseWriter.finish, ResponseWriter.WriteHeader]
      · split <;>
        simp [statusOnly, ResponseWriter.finish, ResponseWriter.WriteHeader,
          ResponseWriter.Write, ResponseWriter.Set]
  · intro id hgen hok
    rw [← serve_post_valid entropy env r table u hm hd hv,
      serve_post_success entropy env r table u id hm hd hv hgen hok]
    refine ⟨datastore_calls_of_success id u, rfl, ?_⟩
    simp [successWriter_finish]

/-- Witness for C2 (amended): the body `{"name":"Alice","age":30}`. -/
theorem handler_accepts_valid_write_witness :
    Decode alicePost.Body = some ⟨0, "Alice", 30⟩ ∧
    generatedId sampleEntropy sampleEnv = some 1777022036153447422845343859093146575 ∧
    (serve sampleEntropy sampleEnv alicePost []).w.finish.status ≠ 400 ∧
    (serve sampleEntropy sampleEnv alicePost []).calls.filter Call.isDatastore =
      [.Begin, .Exec query [.text (ULID.String 1777022036153447422845343859093146575),
        .text "Alice", .int 30], .Commit] :=
  ⟨by decide, by decide,
   (handler_accepts_valid_write sampleEntropy sampleEnv alicePost [] ⟨0, "Alice", 30⟩
    rfl (by decide) (by decide) (by decide)).1,
   ((handler_accepts_valid_write sampleEntropy sampleEnv alicePost [] ⟨0, "Alice", 30⟩
    rfl (by decide) (by decide) (by decide)).2 1777022036153447422845343859093146575
      (by decide) (by decide)).1⟩

theorem status_200_of_valid (entropy : Entropy) (env : Env) (r : Request) (table : List Row)
    (u : UserResForHTTPPost) (hm : r.Method = "POST") (hd : Decode r.Body = some u)
    (hv : validUser u) (hs : (serve entropy env r table).w.finish.status = 200) :
    ∃ id, generatedId entropy env = some id ∧ insertOk env table id.String := by
  rw [serve_post_valid entropy env r table u hm hd hv] at hs
  cases hgen : generatedId entropy env with
  | none => simp [hgen, statusOnly, ResponseWriter.finish, ResponseWriter.WriteHeader] at hs
  | some id =>
    refine ⟨id, rfl, ?_⟩
    simp only [hgen] at hs
    split_ifs at hs with hb he
    · simp [statusOnly, ResponseWriter.finish, ResponseWriter.WriteHeader] at hs
    · simp [statusOnly, ResponseWriter.finish, ResponseWriter.WriteHeader] at hs
    · rw [not_or] at he
      have hno : ∀ row ∈ table, row.id ≠ id.String := fun row hr hid => he.2 ⟨row, hr, hid⟩
      cases hc : env.commit with
      | ok => exact ⟨by simpa using hb, by simpa using he.1, hno, hc⟩
      | failedNotApplied =>
        simp [hc, statusOnly, ResponseWriter.finish, ResponseWriter.WriteHeader] at hs
      | failedApplied =>
        simp [hc, statusOnly, ResponseWriter.finish, ResponseWriter.WriteHeader] at hs

theorem filter_name_append_new (table : List Row) (id name : String) (age : Int)
    (hno : ∀ row ∈ table, row.name ≠ name) :
    (table ++ [(⟨id, name, some age⟩ : Row)]).filter (fun row => row.name = name) =
      [⟨id, name, some age⟩] := by
  rw [List.filter_append]
  have h1 : table.filter (fun row => decide (row.name = name)) = [] := by
    rw [List.filter_eq_nil_iff]
    intro row hr
    simpa using hno row hr
  simp [h1]

/-- Counterexample to C3 as stated: with a row named `Alice` already in the
table, a successful write of `Alice` followed by a read of `Alice` returns two
records, not one. -/
theorem write_then_read_returns_two_records :
    (serve sampleEntropy sampleEnv alicePost priorAlice).w.finish =
      ⟨200, [], "\"01ARYZ6S41MCDF6VP1H79RC2YF\""⟩ ∧
    (serve sampleEntropy sampleEnv aliceGet
      (serve sampleEntropy sampleEnv alicePost priorAlice).table).w.finish =
      ⟨200, [("Content-Type", "application/json")],
        marshalUsers [⟨"01ARZ3NDEKTSV4RRFFQ69G5FAV", "Alice", 41⟩,
          ⟨"01ARYZ6S41MCDF6VP1H79RC2YF", "Alice", 30⟩]⟩ := by
  decide

/-- C3 (amended). Write-then-read round trip on a table that holds no row of
that name: after a valid write answered with status 200, whose body is the JSON
string of the generated identifier, a read of the same name whose query
succeeds is answered with status 200 and a JSON array of exactly one record,
carrying the identifier of the write, the name and the age that was sent. -/
theorem write_then_read_fresh_name (entropy : Entropy) (env env' : Env) (r g : Request)
    (table : List Row) (u : UserResForHTTPPost)
    (hm : r.Method = "POST") (hd : Decode r.Body = some u) (hv : validUser u)
    (hfresh : ∀ row ∈ table, row.name ≠ u.Name)
    (hs : (serve entropy env r table).w.finish.status = 200)
    (hg : g.Method = "GET") (hname : g.Get "name" = u.Name) (hq : env'.queryErr = false) :
    ∃ id : ULID, (serve entropy env r table).w.finish.body = jsonString id.String ∧
      (serve entropy env' g (serve entropy env r table).table).w.finish =
        ⟨200, [("Content-Type", "application/json")],
          marshalUsers [⟨id.String, u.Name, u.Age⟩]⟩ := by
  obtain ⟨id, hgen, hok⟩ := status_200_of_valid entropy env r table u hm hd hv hs
  refine ⟨id, ?_, ?_⟩
  · rw [serve_post_success entropy env r table u id hm hd hv hgen hok]
    simp [successWriter_finish, marshalULID]
  · rw [serve_post_success entropy env r table u id hm hd hv hgen hok,
      serve_get entropy env' g _ hg]
    simp only [hname, hv.1, hq, if_false, Bool.false_eq_true,
      filter_name_append_new table id.String u.Name u.Age hfresh]
    simp [scanRows, Scan, ResponseWriter.finish, ResponseWriter.WriteHeader,
      ResponseWriter.Write, ResponseWriter.Set]

/-- Witness for C3 (amended): `Alice` written to the empty table, then read. -/
theorem write_then_read_fresh_name_witness :
    (serve sampleEntropy sampleEnv alicePost []).w.finish.status = 200 ∧
    ∃ id : ULID, (serve sampleEntropy sampleEnv alicePost []).w.finish.body = jsonString id.String ∧
      (serve sampleEntropy sampleEnv aliceGet
        (serve sampleEntropy sampleEnv alicePost []).table).w.finish =
        ⟨200, [("Content-Type", "application/json")],
          marshalUsers [⟨id.String, "Alice", 30⟩]⟩ :=
  ⟨by decide,
   write_then_read_fresh_name sampleEntropy sampleEnv sampleEnv alicePost aliceGet []
    ⟨0, "Alice", 30⟩ rfl (by decide) (by decide) (by simp) (by decide) rfl (by decide) rfl⟩

/-- C4. On the success path of a write the status line is written (line 169)
before the header `Content-Type` is set (line 176): the response has status 200
and as body the generated identifier as a bare JSON string, 26 characters
between double quotes, but the header `Content-Type: application/json` set by
the handler is not part of the response. -/
theorem write_success_lacks_content_type (entropy : Entropy) (env : Env) (r : Request)
    (table : List Row) (u : UserResForHTTPPost) (id : ULID)
    (hm : r.Method = "POST") (hd : Decode r.Body = some u) (hv : validUser u)
    (hgen : generatedId entropy env = some id) (hok : insertOk env table id.String) :
    (serve entropy env r table).w.finish = ⟨200, [], marshalULID id⟩ ∧
    (serve entropy env r table).w.finish.get "Content-Type" = none ∧
    (serve entropy env r table).w.header = [("Content-Type", "application/json")] ∧
    marshalULID id = ⟨Char.ofNat 34 :: (encodeBase32 26 id ++ [Char.ofNat 34])⟩ ∧
    (encodeBase32 26 id).length = 26 := by
  rw [serve_post_success entropy env r table u id hm hd hv hgen hok]
  refine ⟨successWriter_finish id, ?_, ?_, marshalULID_eq id, encodeBase32_length 26 id⟩
  · simp [successWriter_finish, Response.get]
  · simp [successWriter, ResponseWriter.WriteHeader, ResponseWriter.Write, ResponseWriter.Set]

/-- Witness for C4: the body `{"name":"Alice","age":30}` written to the empty
table. -/
theorem write_success_lacks_content_type_witness :
    generatedId sampleEntropy sampleEnv = some 1777022036153447422845343859093146575 ∧
    (serve sampleEntropy sampleEnv alicePost []).w.finish =
      ⟨200, [], "\"01ARYZ6S41MCDF6VP1H79RC2YF\""⟩ ∧
    (serve sampleEntropy sampleEnv alicePost []).w.finish.get "Content-Type" = none :=
  ⟨by decide, by decide,
   (write_success_lacks_content_type sampleEntropy sampleEnv alicePost [] ⟨0, "Alice", 30⟩
    1777022036153447422845343859093146575 rfl (by decide) (by decide) (by decide)
    (by decide)).2.1⟩

theorem scanRows_of_ages (rows : List Row) (acc : List UserResForHTTPGet)
    (h : ∀ row ∈ rows, row.age ≠ none) :
    ∃ users, scanRows rows acc = some (acc ++ users) ∧
      List.Forall₂ (fun row u => Scan row = some u) rows users := by
  induction rows generalizing acc with
  | nil => exact ⟨[], by simp [scanRows], List.Forall₂.nil⟩
  | cons row rows ih =>
    cases hage : row.age with
    | none => exact absurd hage (h row (List.mem_cons_self _ _))
    | some age =>
      obtain ⟨users, h1, h2⟩ := ih (acc ++ [⟨row.id, row.name, age⟩])
        fun x hx => h x (List.mem_cons_of_mem _ hx)
      refine ⟨⟨row.id, row.name, age⟩ :: users, ?_, List.Forall₂.cons (by simp [Scan, hage]) h2⟩
      simp [scanRows, Scan, hage, h1]

/-- C5. A read with a non-empty name whose query succeeds and whose matching
rows all scan is answered with status 200, the header `Content-Type:
application/json`, and as body the JSON array of one `{id, name, age}` object
per row the cursor returned, in cursor order; with no matching row the body is
exactly `[]`. -/
theorem handler_read_success (entropy : Entropy) (env : Env) (r : Request) (table : List Row)
    (hm : r.Method = "GET") (hn : r.Get "name" ≠ "") (hq : env.queryErr = false)
    (hs : ∀ row ∈ table, row.name = r.Get "name" → row.age ≠ none) :
    ∃ users,
      List.Forall₂ (fun row u => Scan row = some u)
        (table.filter fun row => row.name = r.Get "name") users ∧
      (serve entropy env r table).w.finish =
        ⟨200, [("Content-Type", "application/json")], marshalUsers users⟩ ∧
      (serve entropy env r table).w.finish.get "Content-Type" = some "application/json" ∧
      (serve entropy env r table).calls =
        [.Query selectSQL [.text (r.Get "name")],
         .HeaderSet "Content-Type" "application/json", .Write (marshalUsers users)] ∧
      ((table.filter fun row => row.name = r.Get "name") = [] →
        (serve entropy env r table).w.finish.body = "[]") := by
  obtain ⟨users, h1, h2⟩ := scanRows_of_ages (table.filter fun row => row.name = r.Get "name") []
    (by
      intro row hr
      rw [List.mem_filter] at hr
      exact hs row hr.1 (by simpa using hr.2))
  rw [List.nil_append] at h1
  have hserve := serve_get entropy env r table hm
  simp only [hn, hq, if_false, Bool.false_eq_true, h1] at hserve
  rw [hserve]
  refine ⟨users, h2, ?_, ?_, rfl, ?_⟩
  · simp [ResponseWriter.finish, ResponseWriter.WriteHeader, ResponseWriter.Write,
      ResponseWriter.Set]
  · simp [ResponseWriter.finish, ResponseWriter.WriteHeader, ResponseWriter.Write,
      ResponseWriter.Set, Response.get]
  · intro hnil
    rw [hnil] at h2
    cases h2
    simp [ResponseWriter.finish, ResponseWriter.WriteHeader, ResponseWriter.Write,
      ResponseWriter.Set]
    decide

/-- Witness for C5: a read of `Bob` on a table that holds only `Alice`. -/
theorem handler_read_success_witness :
    ∃ users,
      List.Forall₂ (fun row u => Scan row = some u)
        (priorAlice.filter fun row => row.name = "Bob") users ∧
      (serve sampleEntropy sampleEnv { Method := "GET", Query := [("name", "Bob")] }
        priorAlice).w.finish = ⟨200, [("Content-Type", "application/json")], marshalUsers users⟩ :=
  let ⟨users, h1, h2, _⟩ := handler_read_success sampleEntropy sampleEnv
    { Method := "GET", Query := [("name", "Bob")] } priorAlice rfl (by decide) rfl (by decide)
  ⟨users, h1, h2⟩

/-- C6. A read whose `name` parameter is absent or empty is answered with status
400 and no body, and no query reaches the datastore. -/
theorem handler_read_missing_name (entropy : Entropy) (env : Env) (r : Request)
    (table : List Row) (hm : r.Method = "GET")
    (hn : (r.Query.find? fun kv => kv.1 = "name") = none ∨ r.Get "name" = "") :
    (serve entropy env r table).w.finish = ⟨400, [], ""⟩ ∧
    (serve entropy env r table).calls = [.WriteHeader 400] ∧
    (∀ c ∈ (serve entropy env r table).calls, c.isDatastore = false) ∧
    (serve entropy env r table).table = table := by
  have hget : r.Get "name" = "" := by
    rcases hn with h | h
    · simp [Request.Get, h]
    · exact h
  rw [serve_get entropy env r table hm]
  simp [hget, statusOnly, ResponseWriter.finish, ResponseWriter.WriteHeader, Call.isDatastore]

/-- Witness for C6: the request `GET /user` without parameters. -/
theorem handler_read_missing_name_witness :
    (serve sampleEntropy sampleEnv { Method := "GET" } priorAlice).w.finish = ⟨400, [], ""⟩ ∧
    (serve sampleEntropy sampleEnv { Method := "GET" } priorAlice).calls = [.WriteHeader 400] :=
  let h := handler_read_missing_name sampleEntropy sampleEnv { Method := "GET" } priorAlice rfl
    (Or.inl rfl)
  ⟨h.1, h.2.1⟩

theorem commit_mem (entropy : Entropy) (env : Env) (r : Request) (table : List Row)
    (h : Call.Commit ∈ (serve entropy env r table).calls) :
    r.Method = "POST" ∧ ∃ u id, Decode r.Body = some u ∧ validUser u ∧ generatedId entropy env = some id ∧
      env.beginErr = false ∧ env.execErr = false ∧ (∀ row ∈ table, row.id ≠ id.String) ∧
      Call.Rollback ∉ (serve entropy env r table).calls := by
  by_cases hg : r.Method = "GET"
  · rw [serve_get entropy env r table hg] at h
    split_ifs at h
    · simp [statusOnly] at h
    · simp [statusOnly] at h
    · split at h <;> simp [statusOnly] at h
  · by_cases hp : r.Method = "POST"
    · refine ⟨hp, ?_⟩
      cases hd : Decode r.Body with
      | none =>
        rw [serve_post_decode_none entropy env r table hp hd] at h
        simp [statusOnly] at h
      | some u =>
        by_cases hv : validUser u
        · rw [serve_post_valid entropy env r table u hp hd hv] at h ⊢
          cases hgen : generatedId entropy env with
          | none => simp [hgen, statusOnly] at h
          | some id =>
            refine ⟨u, id, rfl, hv, rfl, ?_⟩
            simp only [hgen] at h ⊢
            split_ifs at h ⊢ with hb he
            · simp [statusOnly] at h
            · simp [statusOnly, insertCall] at h
            · rw [not_or] at he
              refine ⟨by simpa using hb, by simpa using he.1,
                fun row hr hid => he.2 ⟨row, hr, hid⟩, ?_⟩
              split <;> simp [statusOnly, insertCall]
        · rw [serve_post_invalid entropy env r table u hp hd hv] at h
          simp [statusOnly] at h
    · rw [serve_other entropy env r table hg hp] at h
      simp [statusOnly] at h

theorem execFails_iff (env : Env) (table : List Row) (id : ULID) (u : UserResForHTTPPost) :
    execFails env table id u ↔ (env.execErr = true ∨ ∃ row ∈ table, row.id = id.String) := by
  unfold execFails World.Exec
  by_cases he : env.execErr = true
  · simp [he]
  · by_cases hdup : ∃ row ∈ table, row.id = id.String
    · simp [he, hdup]
    · simp [he, hdup]

/-- C7. A valid write for which the identifier is generated, `Begin` succeeds
and the `INSERT` fails makes exactly the calls `Begin`, `Exec`, `Rollback` and
then `WriteHeader(500)`: one rollback, no commit, and the response, written
after the rollback, has status 500 and no body; the table is unchanged.  For
any request, `Commit` is called only if the `INSERT` was issued and did not
fail, and then `Rollback` is not called. -/
theorem handler_exec_failure_rolls_back (entropy : Entropy) (env : Env) (r : Request)
    (table : List Row) (u : UserResForHTTPPost) (id : ULID)
    (hm : r.Method = "POST") (hd : Decode r.Body = some u) (hv : validUser u)
    (hgen : generatedId entropy env = some id) (hb : env.beginErr = false)
    (hx : execFails env table id u) :
    (serve entropy env r table).calls =
      [.Begin, .Exec query [.text id.String, .text u.Name, .int u.Age], .Rollback,
       .WriteHeader 500] ∧
    (serve entropy env r table).calls.count .Rollback = 1 ∧
    Call.Commit ∉ (serve entropy env r table).calls ∧
    (serve entropy env r table).w.finish = ⟨500, [], ""⟩ ∧
    (serve entropy env r table).table = table ∧
    (∀ (env' : Env) (r' : Request) (table' : List Row),
      Call.Commit ∈ (serve entropy env' r' table').calls →
        Call.Rollback ∉ (serve entropy env' r' table').calls ∧
        ∃ (u' : UserResForHTTPPost) (id' : ULID),
          insertCall id' u' ∈ (serve entropy env' r' table').calls ∧
          ¬ execFails env' table' id' u') := by
  have hfail := (execFails_iff env table id u).1 hx
  have hserve := serve_post_valid entropy env r table u hm hd hv
  simp only [hgen, hb, hfail, if_true, if_false, Bool.false_eq_true] at hserve
  rw [hserve]
  refine ⟨rfl, by simp [statusOnly, insertCall, List.count_cons], by simp [statusOnly, insertCall],
    by simp [statusOnly, ResponseWriter.finish, ResponseWriter.WriteHeader], rfl, ?_⟩
  intro env' r' table' hc
  obtain ⟨hp', u', id', hd', hv', hgen', hb', he', hno', hr'⟩ :=
    commit_mem entropy env' r' table' hc
  refine ⟨hr', u', id', ?_, ?_⟩
  · have hs' := serve_post_valid entropy env' r' table' u' hp' hd' hv'
    have hdup : ¬ (env'.execErr = true ∨ ∃ row ∈ table', row.id = id'.String) := by
      rintro (h | ⟨row, hrow, hid⟩)
      · simp [he'] at h
      · exact hno' row hrow hid
    simp only [hgen', hb', hdup, if_false, Bool.false_eq_true] at hs'
    rw [hs']
    split <;> simp [statusOnly]
  · rw [execFails_iff]
    rintro (h | ⟨row, hrow, hid⟩)
    · simp [he'] at h
    · exact hno' row hrow hid

/-- Witness for C7: a valid write while the datastore refuses the `INSERT`. -/
theorem handler_exec_failure_rolls_back_witness :
    execFails { sampleEnv with execErr := true } [] 1777022036153447422845343859093146575
      ⟨0, "Alice", 30⟩ ∧
    (serve sampleEntropy { sampleEnv with execErr := true } alicePost []).calls =
      [.Begin, .Exec query [.text (ULID.String 1777022036153447422845343859093146575),
        .text "Alice", .int 30], .Rollback, .WriteHeader 500] :=
  ⟨by decide,
   (handler_exec_failure_rolls_back sampleEntropy { sampleEnv with execErr := true } alicePost []
    ⟨0, "Alice", 30⟩ 1777022036153447422845343859093146575 rfl (by decide) (by decide)
    (by decide) rfl (by decide)).1⟩

theorem Timestamp_of_nonneg (t : Int) (h0 : 0 ≤ t) (h1 : t < 2 ^ 63) :
    Timestamp t = (t / 1000000).toNat := by
  unfold Timestamp toUint64 Time.Unix Time.Nanosecond
  have a1 : 0 ≤ t / 1000000000 := by omega
  have a2 : t / 1000000000 < 2 ^ 64 := by omega
  have a3 : 0 ≤ t % 1000000000 / 1000000 := by omega
  have a4 : t % 1000000000 / 1000000 < 1000 := by omega
  rw [Int.emod_eq_of_lt a1 a2, Int.emod_eq_of_lt a3 (by omega)]
  have e : t / 1000000 = t / 1000000000 * 1000 + t % 1000000000 / 1000000 := by omega
  rw [e]
  have hx : ((t / 1000000000).toNat : Int) = t / 1000000000 := Int.toNat_of_nonneg a1
  have hy : ((t % 1000000000 / 1000000).toNat : Int) = t % 1000000000 / 1000000 :=
    Int.toNat_of_nonneg a3
  have hz : ((t / 1000000000 * 1000 + t % 1000000000 / 1000000).toNat : Int) =
      t / 1000000000 * 1000 + t % 1000000000 / 1000000 := Int.toNat_of_nonneg (by omega)
  omega

theorem Timestamp_mono (t₁ t₂ : Int) (h0 : 0 ≤ t₁) (h : t₁ ≤ t₂) (h1 : t₂ < 2 ^ 63) :
    Timestamp t₁ ≤ Timestamp t₂ := by
  rw [Timestamp_of_nonneg t₁ h0 (by omega), Timestamp_of_nonneg t₂ (by omega) h1]
  have : t₁ / 1000000 ≤ t₂ / 1000000 := by omega
  omega

theorem exec_id (entropy : Entropy) (env : Env) (r : Request) (table : List Row)
    (sql s : String) (rest : List SQLValue)
    (h : Call.Exec sql (.text s :: rest) ∈ (serve entropy env r table).calls) :
    ∃ id : Nat, s = ULID.String id ∧ id < 2 ^ 128 ∧
      id = Timestamp env.nowStamp * 2 ^ 80 + entropy env.nowSeed.UnixNano % 2 ^ 80 := by
  obtain ⟨_, u, id, _, _, hgen, _, he⟩ := exec_mem entropy env r table sql _ h
  obtain ⟨_, h2, h3⟩ := ulidNew_eq_some hgen
  simp only [insertCall, Call.Exec.injEq, List.cons.injEq, SQLValue.text.injEq] at he
  exact ⟨id, he.2.1, h3, h2⟩

theorem serve_ids_nodup (entropy : Entropy) (env : Env) (r : Request) (table : List Row)
    (h : (table.map Row.id).Nodup) : ((serve entropy env r table).table.map Row.id).Nodup := by
  rcases serve_table_cases entropy env r table with h1 | ⟨_, u, id, _, _, _, hno, h1⟩
  · rwa [h1]
  · rw [h1, List.map_append, List.nodup_append]
    refine ⟨h, by simp, ?_⟩
    intro a ha hb
    simp only [List.map_cons, List.map_nil, List.mem_singleton] at hb
    rw [List.mem_map] at ha
    obtain ⟨row, hr, hid⟩ := ha
    exact hno row hr (hid.trans hb)

/-- Counterexample to C8 as stated: two valid writes to which the clock returns
the same values generate the same identifier (the second `INSERT` then fails on
the primary key and the write is answered with status 500). -/
theorem same_clock_same_identifier :
    Call.Exec query [.text "01ARYZ6S41MCDF6VP1H79RC2YF", .text "Alice", .int 30] ∈
      (serve sampleEntropy sampleEnv alicePost []).calls ∧
    Call.Exec query [.text "01ARYZ6S41MCDF6VP1H79RC2YF", .text "Alice", .int 30] ∈
      (serve sampleEntropy sampleEnv alicePost
        (serve sampleEntropy sampleEnv alicePost []).table).calls ∧
    (serve sampleEntropy sampleEnv alicePost
      (serve sampleEntropy sampleEnv alicePost []).table).w.finish.status = 500 := by
  decide

/-- C8 (amended). The identifiers of two `INSERT` calls issued by the handler
are equal exactly when the two requests have the same millisecond timestamp
(second clock reading) and the same 80-bit payload from the source seeded with
the first clock reading; in particular two requests given the same clock values
get the same identifier.  The table never holds two rows with the same id: the
handler keeps the ids of the table pairwise distinct. -/
theorem generated_identifiers_equal_iff (entropy : Entropy) (env₁ env₂ : Env)
    (r₁ r₂ : Request) (t₁ t₂ : List Row) (sql₁ sql₂ s₁ s₂ : String)
    (rest₁ rest₂ : List SQLValue)
    (h₁ : Call.Exec sql₁ (.text s₁ :: rest₁) ∈ (serve entropy env₁ r₁ t₁).calls)
    (h₂ : Call.Exec sql₂ (.text s₂ :: rest₂) ∈ (serve entropy env₂ r₂ t₂).calls) :
    (s₁ = s₂ ↔ Timestamp env₁.nowStamp = Timestamp env₂.nowStamp ∧
      entropy env₁.nowSeed.UnixNano % 2 ^ 80 = entropy env₂.nowSeed.UnixNano % 2 ^ 80) ∧
    (∀ (env : Env) (r : Request) (table : List Row), (table.map Row.id).Nodup →
      ((serve entropy env r table).table.map Row.id).Nodup) := by
  obtain ⟨id₁, e₁, b₁, d₁⟩ := exec_id entropy env₁ r₁ t₁ sql₁ s₁ rest₁ h₁
  obtain ⟨id₂, e₂, b₂, d₂⟩ := exec_id entropy env₂ r₂ t₂ sql₂ s₂ rest₂ h₂
  refine ⟨?_, fun env r table => serve_ids_nodup entropy env r table⟩
  rw [e₁, e₂, ULID.String_inj id₁ id₂ b₁ b₂, d₁, d₂]
  exact ulid_eq_iff (Nat.mod_lt _ (by positivity)) (Nat.mod_lt _ (by positivity))

/-- Witness for C8 (amended): two writes one millisecond apart. -/
theorem generated_identifiers_equal_iff_witness :
    Call.Exec query [.text "01ARYZ6S41MCDF6VP1H79RC2YF", .text "Alice", .int 30] ∈
      (serve sampleEntropy sampleEnv alicePost []).calls ∧
    Call.Exec query [.text "01ARYZ6S42WV1QF1QQBQVN4W8F", .text "Alice", .int 30] ∈
      (serve sampleEntropy nextMsEnv alicePost []).calls ∧
    ("01ARYZ6S41MCDF6VP1H79RC2YF" = "01ARYZ6S42WV1QF1QQBQVN4W8F" ↔
      Timestamp sampleEnv.nowStamp = Timestamp nextMsEnv.nowStamp ∧
      sampleEntropy sampleEnv.nowSeed.UnixNano % 2 ^ 80 =
        sampleEntropy nextMsEnv.nowSeed.UnixNano % 2 ^ 80) :=
  ⟨by decide, by decide,
   (generated_identifiers_equal_iff sampleEntropy sampleEnv nextMsEnv alicePost alicePost [] []
    query query _ _ [.text "Alice", .int 30] [.text "Alice", .int 30] (by decide)
    (by decide)).1⟩

/-- Counterexample to C9 as stated: `laterEnv` reads the clock after
`sampleEnv`, within the same millisecond, and the source seeded with the later
reading yields the smaller payload: the later identifier is the smaller
string. -/
theorem later_write_smaller_identifier :
    sampleEnv.nowSeed ≤ sampleEnv.nowStamp ∧ sampleEnv.nowStamp ≤ laterEnv.nowSeed ∧
    laterEnv.nowSeed ≤ laterEnv.nowStamp ∧
    Call.Exec query [.text "01ARYZ6S41MCDF6VP1H79RC2YF", .text "Alice", .int 30] ∈
      (serve sampleEntropy sampleEnv alicePost []).calls ∧
    Call.Exec query [.text "01ARYZ6S410002WXA2VQTMH7CP", .text "Alice", .int 30] ∈
      (serve sampleEntropy laterEnv alicePost []).calls ∧
    "01ARYZ6S410002WXA2VQTMH7CP" < "01ARYZ6S41MCDF6VP1H79RC2YF" :=
  ⟨by decide, by decide, by decide, by decide, by decide,
   String.lt_iff_toList_lt.2 (by decide)⟩

/-- C9 (amended). For two identifiers generated by the handler from clock
readings between 1970 and 2262, the first not later than the second: the
millisecond timestamp of the first is at most that of the second; if it is
smaller, the text of the first identifier is lexicographically smaller; if both
fall in the same millisecond, the two texts are ordered as the two random
payloads are. -/
theorem generated_identifiers_order (entropy : Entropy) (env₁ env₂ : Env)
    (r₁ r₂ : Request) (t₁ t₂ : List Row) (sql₁ sql₂ s₁ s₂ : String)
    (rest₁ rest₂ : List SQLValue)
    (h₁ : Call.Exec sql₁ (.text s₁ :: rest₁) ∈ (serve entropy env₁ r₁ t₁).calls)
    (h₂ : Call.Exec sql₂ (.text s₂ :: rest₂) ∈ (serve entropy env₂ r₂ t₂).calls)
    (h0 : 0 ≤ env₁.nowStamp) (hle : env₁.nowStamp ≤ env₂.nowStamp)
    (h63 : env₂.nowStamp < 2 ^ 63) :
    Timestamp env₁.nowStamp ≤ Timestamp env₂.nowStamp ∧
    (Timestamp env₁.nowStamp < Timestamp env₂.nowStamp → s₁ < s₂) ∧
    (Timestamp env₁.nowStamp = Timestamp env₂.nowStamp →
      (s₁ ≤ s₂ ↔ entropy env₁.nowSeed.UnixNano % 2 ^ 80 ≤ entropy env₂.nowSeed.UnixNano % 2 ^ 80)) := by
  obtain ⟨id₁, e₁, b₁, d₁⟩ := exec_id entropy env₁ r₁ t₁ sql₁ s₁ rest₁ h₁
  obtain ⟨id₂, e₂, b₂, d₂⟩ := exec_id entropy env₂ r₂ t₂ sql₂ s₂ rest₂ h₂
  have p₁ : entropy env₁.nowSeed.UnixNano % 2 ^ 80 < 2 ^ 80 := Nat.mod_lt _ (by positivity)
  have p₂ : entropy env₂.nowSeed.UnixNano % 2 ^ 80 < 2 ^ 80 := Nat.mod_lt _ (by positivity)
  refine ⟨Timestamp_mono _ _ h0 hle h63, ?_, ?_⟩
  · intro hlt
    rw [e₁, e₂, ULID.String_lt_iff id₁ id₂ b₁ b₂, d₁, d₂]
    exact (ulid_lt_iff p₁ p₂).2 (Or.inl hlt)
  · intro heq
    rw [e₁, e₂, ULID.String_le_iff id₁ id₂ b₁ b₂, d₁, d₂, heq]
    omega

/-- Witness for C9 (amended): two writes one millisecond apart. -/
theorem generated_identifiers_order_witness :
    Call.Exec query [.text "01ARYZ6S41MCDF6VP1H79RC2YF", .text "Alice", .int 30] ∈
      (serve sampleEntropy sampleEnv alicePost []).calls ∧
    Call.Exec query [.text "01ARYZ6S42WV1QF1QQBQVN4W8F", .text "Alice", .int 30] ∈
      (serve sampleEntropy nextMsEnv alicePost []).calls ∧
    sampleEnv.nowStamp ≤ nextMsEnv.nowStamp ∧
    Timestamp sampleEnv.nowStamp < Timestamp nextMsEnv.nowStamp ∧
    "01ARYZ6S41MCDF6VP1H79RC2YF" < "01ARYZ6S42WV1QF1QQBQVN4W8F" :=
  ⟨by decide, by decide, by decide, by decide,
   (generated_identifiers_order sampleEntropy sampleEnv nextMsEnv alicePost alicePost [] []
    query query _ _ [.text "Alice", .int 30] [.text "Alice", .int 30] (by decide) (by decide)
    (by decide) (by decide) (by decide)).2.1 (by decide)⟩

theorem decodeMember_congr (u v : UserResForHTTPPost) (m : Key × JSONValue)
    (h : nameAndAge u = nameAndAge v) :
    (decodeMember u m).map nameAndAge = (decodeMember v m).map nameAndAge := by
  obtain ⟨k, x⟩ := m
  simp only [nameAndAge, Prod.mk.injEq] at h
  cases k <;> cases x <;> simp [decodeMember, nameAndAge, h]

theorem decodeMembers_congr (ms : List (Key × JSONValue)) (u v : UserResForHTTPPost)
    (h : nameAndAge u = nameAndAge v) :
    (decodeMembers u ms).map nameAndAge = (decodeMembers v ms).map nameAndAge := by
  induction ms generalizing u v with
  | nil => simp [decodeMembers, h]
  | cons m ms ih =>
    have hm := decodeMember_congr u v m h
    simp only [decodeMembers]
    cases hu : decodeMember u m <;> cases hv : decodeMember v m <;> simp [hu, hv] at hm ⊢
    exact ih _ _ hm

theorem decodeMembers_append (a b : List (Key × JSONValue)) (u : UserResForHTTPPost) :
    decodeMembers u (a ++ b) = (decodeMembers u a).bind fun v => decodeMembers v b := by
  induction a generalizing u with
  | nil => simp [decodeMembers]
  | cons m a ih =>
    simp only [List.cons_append, decodeMembers]
    cases decodeMember u m with
    | none => simp
    | some v => exact ih v

theorem decodeMembers_with_id (pre post : List (Key × JSONValue)) (x : JSONValue)
    (u : UserResForHTTPPost) (hx : acceptableId x = true) :
    (decodeMembers u (pre ++ (.id, x) :: post)).map nameAndAge =
      (decodeMembers u (pre ++ post)).map nameAndAge := by
  rw [decodeMembers_append, decodeMembers_append]
  cases decodeMembers u pre with
  | none => simp
  | some v =>
    simp only [Option.some_bind, decodeMembers]
    cases x <;> simp [acceptableId] at hx
    · simp [decodeMember]
    · rename_i s
      cases hs : ULID.UnmarshalText s with
      | none => simp [hs] at hx
      | some id =>
        simp only [decodeMember, hs, Option.map_some']
        exact decodeMembers_congr post _ _ rfl

theorem decodeMembers_bad_id (pre post : List (Key × JSONValue)) (x : JSONValue)
    (u : UserResForHTTPPost) (hx : acceptableId x = false) :
    decodeMembers u (pre ++ (.id, x) :: post) = none := by
  rw [decodeMembers_append]
  cases decodeMembers u pre with
  | none => simp
  | some v =>
    simp only [Option.some_bind, decodeMembers]
    cases x <;> simp [acceptableId] at hx <;> simp [decodeMember]
    simp [hx]

theorem serve_congr (entropy : Entropy) (env : Env) (r r' : Request) (table : List Row)
    (hm : r.Method = r'.Method) (hq : r.Query = r'.Query)
    (hb : (Decode r.Body).map nameAndAge = (Decode r'.Body).map nameAndAge) :
    serve entropy env r table = serve entropy env r' table := by
  unfold serve handler Request.Get
  rw [hm, hq]
  cases h : Decode r.Body with
  | none =>
    cases h' : Decode r'.Body with
    | none => rfl
    | some v => simp [h, h'] at hb
  | some u =>
    cases h' : Decode r'.Body with
    | none => simp [h, h'] at hb
    | some v =>
      simp only [h, h', Option.map_some', Option.some.injEq, nameAndAge, Prod.mk.injEq] at hb
      simp only [hb.1, hb.2]

/-- Counterexample to C10 as stated: the body
`{"id":"x","name":"Alice","age":30}` is answered with status 500 and nothing is
written to the datastore, whereas the same body without the `id` member is
answered with status 200. -/
theorem malformed_id_changes_response :
    (serve sampleEntropy sampleEnv
      (postOf [] [(.id, .string "x"), (.name, .string "Alice"), (.age, .int 30)]) []) =
      statusOnly [] [] 500 ∧
    (serve sampleEntropy sampleEnv
      (postOf [] [(.name, .string "Alice"), (.age, .int 30)]) []).w.finish.status = 200 := by
  decide

/-- C10 (amended). An `id` member of the body that is `null` or a string
accepted by `ULID.UnmarshalText` (26 bytes, the first at most `'7'`) is ignored:
wherever it stands among the members, the world the handler leaves (response,
datastore calls, table) is the one it leaves for the same body without that
member.  Any other `id` member makes the decoding fail: the response is a bare
status 500 and the datastore is not touched. -/
theorem handler_ignores_wellformed_id (entropy : Entropy) (env : Env)
    (q : List (String × String)) (pre post : List (Key × JSONValue)) (x : JSONValue)
    (table : List Row) :
    (acceptableId x = true →
      serve entropy env (postOf q (pre ++ (.id, x) :: post)) table =
        serve entropy env (postOf q (pre ++ post)) table) ∧
    (acceptableId x = false →
      serve entropy env (postOf q (pre ++ (.id, x) :: post)) table = statusOnly table [] 500) := by
  constructor
  · intro hx
    exact serve_congr entropy env _ _ table rfl rfl
      (decodeMembers_with_id pre post x ⟨0, "", 0⟩ hx)
  · intro hx
    exact serve_post_decode_none entropy env _ table rfl
      (decodeMembers_bad_id pre post x ⟨0, "", 0⟩ hx)

/-- Witness for C10 (amended): the body
`{"name":"Alice","id":"01ARZ3NDEKTSV4RRFFQ69G5FAV","age":30}`. -/
theorem handler_ignores_wellformed_id_witness :
    acceptableId (.string "01ARZ3NDEKTSV4RRFFQ69G5FAV") = true ∧
    serve sampleEntropy sampleEnv
      (postOf [] ([(.name, .string "Alice")] ++
        (.id, .string "01ARZ3NDEKTSV4RRFFQ69G5FAV") :: [(.age, .int 30)])) [] =
      serve sampleEntropy sampleEnv
        (postOf [] ([(.name, .string "Alice")] ++ [(.age, .int 30)])) [] :=
  ⟨by decide,
   (handler_ignores_wellformed_id sampleEntropy sampleEnv [] [(.name, .string "Alice")]
    [(.age, .int 30)] (.string "01ARZ3NDEKTSV4RRFFQ69G5FAV") []).1 (by decide)⟩

end UserService
